import Mathlib

/-!
Verification of the eclipse-paho MQTT client core against its specification.

The Go sources are shallowly embedded: byte streams become lists of natural
numbers below 256, readers become list-consuming functions returning the
unread remainder, fallible operations return Except or Option, and the
stores become explicit state records.  Machine integers are modelled as Nat
with bitwise operations; the uint32 accumulator of decodeLength never
exceeds 28 bits so no wraparound modelling is needed there.
-/

namespace PahoMqtt

/-- Bytes of the wire format are naturals assumed below 256. -/
abbrev Byte := Nat

/-- Error values produced by the embedded readers and unpackers.  The Go
code uses distinct error objects; only their identity matters here. -/
inductive PErr where
  | ioEOF
  | ioUnexpectedEOF
  | badPacketType
  | unpackFailed
  deriving DecidableEq

deriving instance DecidableEq for Except

/-- Embedding of encodeLength (packets.go): variable-length-quantity
encoding of the remaining-length field, 7 bits of magnitude per byte plus a
continuation bit, least significant group first. -/
def encodeLength (length : Nat) : List Byte :=
  let digit := length % 128
  let rest := length / 128
  if h : 0 < rest then
    (digit + 128) :: encodeLength rest
  else
    [digit]
termination_by length
decreasing_by
  have hpos : 0 < length := by
    rcases Nat.eq_zero_or_pos length with h0 | h0
    · subst h0; simp at h
    · exact h0
  exact Nat.div_lt_self hpos (by omega)

/-- Loop body of decodeLength (packets.go).  The Go loop runs while
multiplier < 27, reading one byte per iteration and or-ing the low 7 bits
shifted by the multiplier into the accumulator; a byte with clear
continuation bit ends the loop normally.  When the multiplier reaches 28
the loop exits and the function returns the accumulated value with a nil
error. -/
def decodeLengthAux (multiplier rLength : Nat) :
    List Byte → Except PErr (Nat × List Byte)
  | [] =>
    if multiplier < 27 then .error .ioUnexpectedEOF
    else .ok (rLength, [])
  | digit :: rest =>
    if multiplier < 27 then
      let r := rLength ||| ((digit &&& 127) <<< multiplier)
      if digit &&& 128 = 0 then .ok (r, rest)
      else decodeLengthAux (multiplier + 7) r rest
    else
      .ok (rLength, digit :: rest)

/-- Embedding of decodeLength (packets.go): decodes the remaining-length
field from the front of the stream, returning the value and the unread
remainder of the stream. -/
def decodeLength (input : List Byte) : Except PErr (Nat × List Byte) :=
  decodeLengthAux 0 0 input

/-- Embedding of encodeBytes (packets.go): a 2-byte big-endian length
prefix followed by the field, with fields longer than 65535 bytes silently
truncated to their first 65535 bytes.  The function has no error result. -/
def encodeBytes (field : List Byte) : List Byte :=
  let f := if field.length > 65535 then field.take 65535 else field
  (f.length >>> 8) :: (f.length &&& 255) :: f

/-- Embedding of encodeString (packets.go): strings encode through
encodeBytes. -/
def encodeString (field : List Byte) : List Byte :=
  encodeBytes field

/-- Claim C1 counterexample: on a stream of five continuation bytes
decodeLength terminates after consuming only four bytes and returns the
accumulated value with no error, not a malformed-length error. -/
theorem decodeLength_fiveContinuation_no_error :
    decodeLength [128, 128, 128, 128, 128] = .ok (0, [128]) := by
  simp [decodeLength, decodeLengthAux] <;> decide

/-- Claim C1 (amended): for every byte stream whose first five bytes all
have the continuation bit set, decodeLength terminates, consumes exactly
the first four bytes, and returns the value accumulated from their 7-bit
groups with no error; the fifth continuation byte is left unread and no
malformed-length error is produced. -/
theorem decodeLength_terminates_on_continuations
    (d1 d2 d3 d4 d5 : Byte) (rest : List Byte)
    (h1 : d1 &&& 128 ≠ 0) (h2 : d2 &&& 128 ≠ 0)
    (h3 : d3 &&& 128 ≠ 0) (h4 : d4 &&& 128 ≠ 0)
    (h5 : d5 &&& 128 ≠ 0) :
    decodeLength (d1 :: d2 :: d3 :: d4 :: d5 :: rest) =
      .ok ((((d1 &&& 127) ||| ((d2 &&& 127) <<< 7)) ||| ((d3 &&& 127) <<< 14))
             ||| ((d4 &&& 127) <<< 21), d5 :: rest) := by
  simp [decodeLength, decodeLengthAux, h1, h2, h3, h4]

/-- Claim C1 witness: the amended theorem applied to the all-ones stream. -/
theorem decodeLength_terminates_on_continuations_witness :
    (255 &&& 128 ≠ 0) ∧
      decodeLength [255, 255, 255, 255, 255, 7] =
        .ok ((((255 &&& 127) ||| ((255 &&& 127) <<< 7)) |||
               ((255 &&& 127) <<< 14)) ||| ((255 &&& 127) <<< 21), [255, 7]) :=
  ⟨by decide,
   decodeLength_terminates_on_continuations 255 255 255 255 255 [7]
     (by decide) (by decide) (by decide) (by decide) (by decide)⟩

/-- Claim C3: decodeLength inverts encodeLength on every boundary value
L in the set 0, 1, 127, 128, 16383, 16384, 2097151, 2097152, consuming the
whole encoding. -/
theorem decodeLength_encodeLength_boundary :
    decodeLength (encodeLength 0) = .ok (0, []) ∧
    decodeLength (encodeLength 1) = .ok (1, []) ∧
    decodeLength (encodeLength 127) = .ok (127, []) ∧
    decodeLength (encodeLength 128) = .ok (128, []) ∧
    decodeLength (encodeLength 16383) = .ok (16383, []) ∧
    decodeLength (encodeLength 16384) = .ok (16384, []) ∧
    decodeLength (encodeLength 2097151) = .ok (2097151, []) ∧
    decodeLength (encodeLength 2097152) = .ok (2097152, []) := by
  refine ⟨?_, ?_, ?_, ?_, ?_, ?_, ?_, ?_⟩ <;>
    simp [encodeLength, decodeLength, decodeLengthAux] <;> decide

/-- Claim C8: a field of at most 65535 bytes is emitted in full behind a
2-byte big-endian prefix holding its exact length, while a longer field is
truncated to exactly its first 65535 bytes behind the prefix 255, 255; the
encoder reports no error in either case (its result type has no error
component). -/
theorem encodeBytes_length_prefix_and_truncation (field : List Byte) :
    (field.length ≤ 65535 →
       encodeBytes field =
         (field.length >>> 8) :: (field.length &&& 255) :: field) ∧
    (field.length > 65535 →
       encodeBytes field = 255 :: 255 :: field.take 65535) := by
  constructor
  · intro h
    have hnot : ¬ field.length > 65535 := by omega
    simp [encodeBytes, hnot]
  · intro h
    have hlen : (field.take 65535).length = 65535 := by
      simp [List.length_take]
      omega
    simp [encodeBytes, h, hlen] <;> decide

/-- Claim C8 witness: both branches of the theorem at concrete fields. -/
theorem encodeBytes_length_prefix_and_truncation_witness :
    (([7, 8] : List Byte).length ≤ 65535 ∧
       encodeBytes [7, 8] = [0, 2, 7, 8]) ∧
    ((List.replicate 70000 (9 : Byte)).length > 65535 ∧
       encodeBytes (List.replicate 70000 (9 : Byte)) =
         255 :: 255 :: (List.replicate 70000 (9 : Byte)).take 65535) := by
  refine ⟨⟨by decide, ?_⟩, ⟨by simp only [List.length_replicate]; omega, ?_⟩⟩
  · have h := (encodeBytes_length_prefix_and_truncation [7, 8]).1 (by decide)
    simpa using h
  · exact (encodeBytes_length_prefix_and_truncation
      (List.replicate 70000 (9 : Byte))).2
      (by simp only [List.length_replicate]; omega)

/-- Embedding of the FixedHeader struct (packets.go): message type, dup
flag, quality of service, retain flag and remaining length.  MessageType
and Qos are Go bytes, RemainingLength a Go int; all are naturals here. -/
structure FixedHeader where
  MessageType : Nat
  Dup : Bool
  Qos : Nat
  Retain : Bool
  RemainingLength : Nat
  deriving DecidableEq

/-- Embedding of the ControlPacket interface as the tagged union over the
14 packet kinds.  The variant bodies (CONNECT fields, PUBLISH payload and
so on) live in repository files that are not under src, so each variant
carries only its fixed-header facet, which is all the claims consult. -/
inductive Packet where
  | connect (fh : FixedHeader)
  | connack (fh : FixedHeader)
  | publish (fh : FixedHeader)
  | puback (fh : FixedHeader)
  | pubrec (fh : FixedHeader)
  | pubrel (fh : FixedHeader)
  | pubcomp (fh : FixedHeader)
  | subscribe (fh : FixedHeader)
  | suback (fh : FixedHeader)
  | unsubscribe (fh : FixedHeader)
  | unsuback (fh : FixedHeader)
  | pingreq (fh : FixedHeader)
  | pingresp (fh : FixedHeader)
  | disconnect (fh : FixedHeader)
  deriving DecidableEq

/-- Discriminant of a packet variant, matching the packet type constants
Connect = 1 through Disconnect = 14 (packets.go). -/
def variantType : Packet → Nat
  | .connect _ => 1
  | .connack _ => 2
  | .publish _ => 3
  | .puback _ => 4
  | .pubrec _ => 5
  | .pubrel _ => 6
  | .pubcomp _ => 7
  | .subscribe _ => 8
  | .suback _ => 9
  | .unsubscribe _ => 10
  | .unsuback _ => 11
  | .pingreq _ => 12
  | .pingresp _ => 13
  | .disconnect _ => 14

/-- Fixed header carried by a packet variant. -/
def headerOf : Packet → FixedHeader
  | .connect fh => fh
  | .connack fh => fh
  | .publish fh => fh
  | .puback fh => fh
  | .pubrec fh => fh
  | .pubrel fh => fh
  | .pubcomp fh => fh
  | .subscribe fh => fh
  | .suback fh => fh
  | .unsubscribe fh => fh
  | .unsuback fh => fh
  | .pingreq fh => fh
  | .pingresp fh => fh
  | .disconnect fh => fh

/-- Embedding of NewControlPacket (packets.go): builds an empty packet of
the requested type, with Qos preset to 1 for PUBREL, SUBSCRIBE and
UNSUBSCRIBE as in the source; the Go function returns nil for an unknown
type, modelled as none. -/
def NewControlPacket (packetType : Nat) : Option Packet :=
  match packetType with
  | 1 => some (.connect ⟨1, false, 0, false, 0⟩)
  | 2 => some (.connack ⟨2, false, 0, false, 0⟩)
  | 14 => some (.disconnect ⟨14, false, 0, false, 0⟩)
  | 3 => some (.publish ⟨3, false, 0, false, 0⟩)
  | 4 => some (.puback ⟨4, false, 0, false, 0⟩)
  | 5 => some (.pubrec ⟨5, false, 0, false, 0⟩)
  | 6 => some (.pubrel ⟨6, false, 1, false, 0⟩)
  | 7 => some (.pubcomp ⟨7, false, 0, false, 0⟩)
  | 8 => some (.subscribe ⟨8, false, 1, false, 0⟩)
  | 9 => some (.suback ⟨9, false, 0, false, 0⟩)
  | 10 => some (.unsubscribe ⟨10, false, 1, false, 0⟩)
  | 11 => some (.unsuback ⟨11, false, 0, false, 0⟩)
  | 12 => some (.pingreq ⟨12, false, 0, false, 0⟩)
  | 13 => some (.pingresp ⟨13, false, 0, false, 0⟩)
  | _ => none

/-- Embedding of NewControlPacketWithHeader (packets.go): builds an empty
packet of the type named by the given fixed header, or the construction
error for an unsupported type. -/
def NewControlPacketWithHeader (fh : FixedHeader) : Except String Packet :=
  match fh.MessageType with
  | 1 => .ok (.connect fh)
  | 2 => .ok (.connack fh)
  | 14 => .ok (.disconnect fh)
  | 3 => .ok (.publish fh)
  | 4 => .ok (.puback fh)
  | 5 => .ok (.pubrec fh)
  | 6 => .ok (.pubrel fh)
  | 7 => .ok (.pubcomp fh)
  | 8 => .ok (.subscribe fh)
  | 9 => .ok (.suback fh)
  | 10 => .ok (.unsubscribe fh)
  | 11 => .ok (.unsuback fh)
  | 12 => .ok (.pingreq fh)
  | 13 => .ok (.pingresp fh)
  | _ => .error "unsupported packet type"

/-- Claim C4: construction from a message-type discriminant is total over
the 14 known values: each of 1 through 14 yields an empty packet of that
very type from both constructors, and every other byte value yields none
from NewControlPacket and a construction error from
NewControlPacketWithHeader. -/
theorem newControlPacket_total (fh : FixedHeader) (hb : fh.MessageType < 256) :
    ((1 ≤ fh.MessageType ∧ fh.MessageType ≤ 14) →
       (∃ cp, NewControlPacket fh.MessageType = some cp ∧
          variantType cp = fh.MessageType) ∧
       (∃ cp, NewControlPacketWithHeader fh = .ok cp ∧
          variantType cp = fh.MessageType ∧ headerOf cp = fh)) ∧
    (¬ (1 ≤ fh.MessageType ∧ fh.MessageType ≤ 14) →
       NewControlPacket fh.MessageType = none ∧
       ∃ e, NewControlPacketWithHeader fh = .error e) := by
  obtain ⟨t, dup, qos, ret, rl⟩ := fh
  simp only [FixedHeader.mk.injEq] at *
  constructor
  · rintro ⟨h1, h2⟩
    interval_cases t <;>
      exact ⟨⟨_, rfl, rfl⟩, ⟨_, rfl, rfl, rfl⟩⟩
  · intro hn
    have ht : t = 0 ∨ 15 ≤ t := by omega
    rcases ht with ht | ht
    · subst ht
      exact ⟨rfl, ⟨_, rfl⟩⟩
    · obtain ⟨k, rfl⟩ : ∃ k, t = k + 15 := ⟨t - 15, by omega⟩
      exact ⟨rfl, ⟨_, rfl⟩⟩

/-- Claim C4 witness: the theorem applied to a PUBLISH header and the
known-type branch evaluated there. -/
theorem newControlPacket_total_witness :
    (3 : Nat) < 256 ∧
      ((1 ≤ 3 ∧ 3 ≤ 14) →
         (∃ cp, NewControlPacket 3 = some cp ∧ variantType cp = 3) ∧
         (∃ cp, NewControlPacketWithHeader ⟨3, false, 0, false, 0⟩ = .ok cp ∧
            variantType cp = 3 ∧ headerOf cp = ⟨3, false, 0, false, 0⟩)) :=
  ⟨by decide, fun h =>
    (newControlPacket_total ⟨3, false, 0, false, 0⟩ (by decide)).1 h⟩

/-- Embedding of decodeByte (packets.go): reads one byte from the stream
or fails on an exhausted stream. -/
def decodeByte : List Byte → Except PErr (Byte × List Byte)
  | [] => .error .ioEOF
  | x :: rest => .ok (x, rest)

/-- Embedding of decodeUint16 (packets.go): reads two bytes big-endian. -/
def decodeUint16 : List Byte → Except PErr (Nat × List Byte)
  | hi :: lo :: rest => .ok ((hi <<< 8) ||| lo, rest)
  | _ => .error .ioEOF

/-- Embedding of the method unpack on FixedHeader (packets.go): splits the
type-and-flags byte into its fields and decodes the remaining length from
the rest of the stream. -/
def fhUnpack (typeAndFlags : Byte) (r : List Byte) :
    Except PErr (FixedHeader × List Byte) :=
  match decodeLength r with
  | .error e => .error e
  | .ok (len, rest) =>
    .ok (⟨typeAndFlags >>> 4,
          decide (0 < (typeAndFlags >>> 3) &&& 1),
          (typeAndFlags >>> 1) &&& 3,
          decide (0 < typeAndFlags &&& 1),
          len⟩, rest)

/-- Modelled from the spec: the Unpack method of ConnackPacket, whose
implementation file is not under src.  The CONNACK variable header is the
session-present flags byte followed by the 8-bit connect return code, each
read with decodeByte; a short body therefore fails with a read error. -/
def connackUnpack (body : List Byte) : Option PErr :=
  match decodeByte body with
  | .error e => some e
  | .ok (_, rest) =>
    match decodeByte rest with
    | .error e => some e
    | .ok _ => none

/-- Interface dispatch of the Unpack method restricted to the modelled
CONNACK unpacker; every other variant is left abstract (no failure),
since those implementation files are not under src. -/
def unpackConnackOnly : Packet → List Byte → Option PErr
  | .connack _, body => connackUnpack body
  | _, _ => none

/-- Embedding of ReadPacket (packets.go), parameterised by the interface
dispatch of the Unpack method (the variant implementations are outside
src).  The Go function returns the pair of a possibly-nil ControlPacket
and a possibly-nil error; on the final line it returns the constructed
packet together with whatever error Unpack produced. -/
def ReadPacket (unpack : Packet → List Byte → Option PErr)
    (input : List Byte) : Option Packet × Option PErr :=
  match input with
  | [] => (none, some .ioEOF)
  | b0 :: rest =>
    match fhUnpack b0 rest with
    | .error e => (none, some e)
    | .ok (fh, rest2) =>
      match NewControlPacketWithHeader fh with
      | .error _ => (none, some .badPacketType)
      | .ok cp =>
        if fh.RemainingLength ≤ rest2.length then
          (some cp, unpack cp (rest2.take fh.RemainingLength))
        else (none, some .ioUnexpectedEOF)

/-- Claim C10: whenever the fixed header parses, the packet constructs and
the body bytes are all present but Unpack fails on them, ReadPacket
returns the packet and the error both non-nil; concretely, the CONNACK
frame with remaining length zero is an input stream on which both returns
are non-nil, contrary to the documented contract that one of the two is
always nil. -/
theorem readPacket_both_returns_nonnil :
    (∀ (unpack : Packet → List Byte → Option PErr) (b0 : Byte)
       (rest rest2 : List Byte) (fh : FixedHeader) (cp : Packet) (e : PErr),
       fhUnpack b0 rest = .ok (fh, rest2) →
       NewControlPacketWithHeader fh = .ok cp →
       fh.RemainingLength ≤ rest2.length →
       unpack cp (rest2.take fh.RemainingLength) = some e →
       ReadPacket unpack (b0 :: rest) = (some cp, some e)) ∧
    ReadPacket unpackConnackOnly [32, 0] =
      (some (.connack ⟨2, false, 0, false, 0⟩), some .ioEOF) := by
  constructor
  · intro unpack b0 rest rest2 fh cp e hfh hcp hlen hunp
    simp [ReadPacket, hfh, hcp, hlen, hunp]
  · rfl

/-- Claim C10 witness: the conditional part of the theorem applied to the
concrete CONNACK frame, every hypothesis discharged by evaluation. -/
theorem readPacket_both_returns_nonnil_witness :
    ReadPacket unpackConnackOnly [32, 0] =
      (some (.connack ⟨2, false, 0, false, 0⟩), some .ioEOF) :=
  readPacket_both_returns_nonnil.1 unpackConnackOnly 32 [0] []
    ⟨2, false, 0, false, 0⟩ (.connack ⟨2, false, 0, false, 0⟩) .ioEOF
    (by decide) rfl (by decide) rfl

/-- Association-list lookup standing for a Go map read: first binding of
the key, none when absent (the Go map read yields nil). -/
def lookupMsg {α : Type} (k : String) : List (String × α) → Option α
  | [] => none
  | p :: rest => if p.1 = k then some p.2 else lookupMsg k rest

/-- Association-list update standing for a Go map assignment: the new
binding replaces any binding of the same key.  Go maps are unordered, so
binding position carries no meaning. -/
def insertMsg {α : Type} (k : String) (v : α) (l : List (String × α)) :
    List (String × α) :=
  (k, v) :: l.filter (fun p => p.1 ≠ k)

/-- Association-list removal standing for a Go map delete. -/
def eraseMsg {α : Type} (k : String) (l : List (String × α)) :
    List (String × α) :=
  l.filter (fun p => p.1 ≠ k)

/-- Embedding of MemoryStore (memstore.go): the message map and the opened
flag.  The mutex only serialises access and has no sequential content. -/
structure MemoryStore where
  messages : List (String × Packet)
  opened : Bool
  deriving DecidableEq

/-- Embedding of NewMemoryStore (memstore.go). -/
def NewMemoryStore : MemoryStore := ⟨[], false⟩

/-- Embedding of the method Open on MemoryStore. -/
def MemoryStore.Open (s : MemoryStore) : MemoryStore :=
  { s with opened := true }

/-- Embedding of the method Put on MemoryStore: a guarded no-op when the
store is not open, otherwise a map assignment. -/
def MemoryStore.Put (s : MemoryStore) (key : String) (message : Packet) :
    MemoryStore :=
  if s.opened then { s with messages := insertMsg key message s.messages }
  else s

/-- Embedding of the method Get on MemoryStore: nil when the store is not
open, otherwise the map read (nil when the key is absent). -/
def MemoryStore.Get (s : MemoryStore) (key : String) : Option Packet :=
  if s.opened then lookupMsg key s.messages else none

/-- Embedding of the method All on MemoryStore: nil when not open,
otherwise the keys of the map in unspecified order. -/
def MemoryStore.All (s : MemoryStore) : List String :=
  if s.opened then s.messages.map (fun p => p.1) else []

/-- Embedding of the method Del on MemoryStore: a guarded no-op when not
open; when open it deletes the binding if present and only logs
otherwise, so the state effect is exactly the map delete. -/
def MemoryStore.Del (s : MemoryStore) (key : String) : MemoryStore :=
  if s.opened then { s with messages := eraseMsg key s.messages } else s

/-- Embedding of the method Close on MemoryStore: a guarded no-op when not
open, otherwise clears the opened flag. -/
def MemoryStore.Close (s : MemoryStore) : MemoryStore :=
  if s.opened then { s with opened := false } else s

/-- Embedding of the method Reset on MemoryStore: the not-open branch only
logs an error and does not return early, so the message map is replaced by
a fresh empty map in every case. -/
def MemoryStore.Reset (s : MemoryStore) : MemoryStore :=
  { s with messages := [] }

/-- Embedding of storedMessage (memstore_ordered.go): the insertion
timestamp and the message.  Time is an abstract monotone tick counter. -/
structure StoredMessage where
  ts : Nat
  msg : Packet
  deriving DecidableEq

/-- Embedding of OrderedMemoryStore (memstore_ordered.go). -/
structure OrderedMemoryStore where
  messages : List (String × StoredMessage)
  opened : Bool
  deriving DecidableEq

/-- Embedding of NewOrderedMemoryStore (memstore_ordered.go). -/
def NewOrderedMemoryStore : OrderedMemoryStore := ⟨[], false⟩

/-- Embedding of the method Open on OrderedMemoryStore. -/
def OrderedMemoryStore.Open (s : OrderedMemoryStore) : OrderedMemoryStore :=
  { s with opened := true }

/-- Embedding of the method Put on OrderedMemoryStore: stamps the current
time onto the stored message.  The call to time.Now is made explicit as
the parameter now; successive calls in one run are strictly increasing. -/
def OrderedMemoryStore.Put (s : OrderedMemoryStore) (now : Nat)
    (key : String) (message : Packet) : OrderedMemoryStore :=
  if s.opened then
    { s with messages := insertMsg key ⟨now, message⟩ s.messages }
  else s

/-- Embedding of the method Get on OrderedMemoryStore. -/
def OrderedMemoryStore.Get (s : OrderedMemoryStore) (key : String) :
    Option Packet :=
  if s.opened then (lookupMsg key s.messages).map (fun sm => sm.msg)
  else none

/-- Insertion step of the sort used by the method All: the Go code calls
sort.Slice with the strict before-ordering on timestamps; on the strictly
increasing timestamps produced by a run, any comparison sort yields the
unique ascending arrangement, realised here by insertion sort. -/
def insertByTs (x : Nat × String) : List (Nat × String) → List (Nat × String)
  | [] => [x]
  | y :: ys => if x.1 < y.1 then x :: y :: ys else y :: insertByTs x ys

/-- Sort of timestamp-and-key pairs ascending by timestamp. -/
def sortByTs (l : List (Nat × String)) : List (Nat × String) :=
  l.foldr insertByTs []

/-- Boolean check that a list of timestamp-and-key pairs is ascending by
timestamp. -/
def tsAscending : List (Nat × String) → Bool
  | [] => true
  | [_] => true
  | a :: b :: rest => decide (a.1 ≤ b.1) && tsAscending (b :: rest)

/-- Embedding of the method All on OrderedMemoryStore: nil when not open,
otherwise the keys sorted ascending by their recorded insertion time. -/
def OrderedMemoryStore.All (s : OrderedMemoryStore) : List String :=
  if s.opened then
    (sortByTs (s.messages.map (fun p => (p.2.ts, p.1)))).map (fun q => q.2)
  else []

/-- Embedding of the method Del on OrderedMemoryStore. -/
def OrderedMemoryStore.Del (s : OrderedMemoryStore) (key : String) :
    OrderedMemoryStore :=
  if s.opened then { s with messages := eraseMsg key s.messages } else s

/-- Embedding of the method Close on OrderedMemoryStore. -/
def OrderedMemoryStore.Close (s : OrderedMemoryStore) : OrderedMemoryStore :=
  if s.opened then { s with opened := false } else s

/-- Embedding of the method Reset on OrderedMemoryStore: as in the
unordered variant, the not-open branch only logs and does not return, so
the map is wiped in every case. -/
def OrderedMemoryStore.Reset (s : OrderedMemoryStore) : OrderedMemoryStore :=
  { s with messages := [] }

theorem lookupMsg_insertMsg_self {α : Type} (k : String) (v : α)
    (l : List (String × α)) : lookupMsg k (insertMsg k v l) = some v := by
  simp [insertMsg, lookupMsg]

theorem lookupMsg_eraseMsg_self {α : Type} (k : String)
    (l : List (String × α)) : lookupMsg k (eraseMsg k l) = none := by
  induction l with
  | nil => rfl
  | cons p rest ih =>
    by_cases hp : p.1 = k
    · simpa [eraseMsg, hp] using ih
    · simpa [eraseMsg, lookupMsg, hp] using ih

/-- Claim C9: on an open in-memory store with arbitrary contents, Get
after Put returns the stored packet, Get after Del reports absence, and
All after Reset is empty. -/
theorem memoryStore_put_get_del_reset (s : MemoryStore) (k : String)
    (m : Packet) (hop : s.opened = true) :
    (s.Put k m).Get k = some m ∧
    (s.Del k).Get k = none ∧
    s.Reset.All = [] := by
  refine ⟨?_, ?_, ?_⟩
  · simp [MemoryStore.Put, MemoryStore.Get, hop, lookupMsg_insertMsg_self]
  · simp [MemoryStore.Del, MemoryStore.Get, hop, lookupMsg_eraseMsg_self]
  · simp [MemoryStore.Reset, MemoryStore.All, hop]

/-- Claim C9 witness: the theorem at a freshly opened store holding a
PINGREQ packet. -/
theorem memoryStore_put_get_del_reset_witness :
    NewMemoryStore.Open.opened = true ∧
      ((NewMemoryStore.Open.Put "o.1"
          (.pingreq ⟨12, false, 0, false, 0⟩)).Get "o.1" =
        some (.pingreq ⟨12, false, 0, false, 0⟩) ∧
       (NewMemoryStore.Open.Del "o.1").Get "o.1" = none ∧
       NewMemoryStore.Open.Reset.All = []) :=
  ⟨rfl, memoryStore_put_get_del_reset NewMemoryStore.Open "o.1"
    (.pingreq ⟨12, false, 0, false, 0⟩) rfl⟩

/-- File held in the modelled store directory: its modification time on
the abstract clock and its raw contents. -/
structure FSFile where
  mtime : Nat
  contents : List Byte
  deriving DecidableEq

/-- Embedding of FileStore (filestore part of the source): the store
directory is modelled as a mapping from file names to files, local to the
configured directory, together with the opened flag. -/
structure FileStore where
  directory : List (String × FSFile)
  opened : Bool
  deriving DecidableEq

/-- Embedding of fullpath: the durable file name of a key. -/
def fullpath (key : String) : String := key ++ ".msg"

/-- Embedding of tmppath: the in-flight file name of a key. -/
def tmppath (key : String) : String := key ++ ".tmp"

/-- Embedding of corruptpath: the quarantine file name of a key. -/
def corruptpath (key : String) : String := key ++ ".CORRUPT"

/-- Embedding of the method Open on FileStore: directory creation is
taken as given, the flag is set. -/
def FileStore.Open (s : FileStore) : FileStore := { s with opened := true }

/-- Embedding of the write helper: create the temporary file holding the
bytes the packet writes, then rename it over the durable name.  The
encode parameter stands for the interface dispatch of the Write method of
ControlPacket, whose implementations are not under src; now is the
modification time stamped by the file creation. -/
def fsWrite (encode : Packet → List Byte) (now : Nat) (key : String)
    (m : Packet) (dir : List (String × FSFile)) : List (String × FSFile) :=
  let afterCreate := insertMsg (tmppath key) ⟨now, encode m⟩ dir
  insertMsg (fullpath key) ⟨now, encode m⟩ (eraseMsg (tmppath key) afterCreate)

/-- Embedding of the method Put on FileStore: a guarded no-op when the
store is not open, otherwise the write helper; the subsequent existence
check only logs. -/
def FileStore.Put (s : FileStore) (encode : Packet → List Byte) (now : Nat)
    (key : String) (m : Packet) : FileStore :=
  if s.opened then
    { s with directory := fsWrite encode now key m s.directory }
  else s

/-- Embedding of the method Get on FileStore: nil when the store is not
open or the file is absent; otherwise the file is decoded with ReadPacket
and, when that fails, the file is renamed aside to the quarantine name and
absence is returned.  The unpack parameter is the interface dispatch of
the Unpack method, as in ReadPacket. -/
def FileStore.Get (s : FileStore) (unpack : Packet → List Byte → Option PErr)
    (key : String) : Option Packet × FileStore :=
  if s.opened then
    match lookupMsg (fullpath key) s.directory with
    | none => (none, s)
    | some f =>
      match ReadPacket unpack f.contents with
      | (msg, none) => (msg, s)
      | (_, some _) =>
        let quarantined :=
          insertMsg (corruptpath key) f (eraseMsg (fullpath key) s.directory)
        (none, { s with directory := quarantined })
  else (none, s)

/-- Check of the extension test in the lockless all helper: the file name
is at least four characters long and ends in the durable extension. -/
def hasMsgExt (name : String) : Bool :=
  decide (4 ≤ name.data.length) &&
    decide (name.data.drop (name.data.length - 4) = ['.', 'm', 's', 'g'])

/-- Removal of the four-character extension, as in the lockless all
helper. -/
def stripMsgExt (name : String) : String :=
  String.mk (name.data.take (name.data.length - 4))

/-- Embedding of the method All on FileStore (through the lockless all
helper): nil when the store is not open, otherwise the file names sorted
ascending by modification time, kept when they carry the durable
extension, with that extension stripped. -/
def FileStore.All (s : FileStore) : List String :=
  if s.opened then
    ((sortByTs (s.directory.map (fun p => (p.2.mtime, p.1)))).map
        (fun q => q.2)).filterMap
      (fun name => if hasMsgExt name then some (stripMsgExt name) else none)
  else []

/-- Embedding of the method Del on FileStore (through the lockless del
helper): a guarded no-op when the store is not open; when open it removes
the durable file if it exists and only logs otherwise. -/
def FileStore.Del (s : FileStore) (key : String) : FileStore :=
  if s.opened then
    if (lookupMsg (fullpath key) s.directory).isSome then
      { s with directory := eraseMsg (fullpath key) s.directory }
    else s
  else s

/-- Embedding of the method Close on FileStore: unconditionally clears the
flag (the source has no guard here). -/
def FileStore.Close (s : FileStore) : FileStore := { s with opened := false }

/-- Embedding of the method Reset on FileStore: deletes every key listed
by the all helper; on a store that is not open the helper returns nil, so
the loop body never runs. -/
def FileStore.Reset (s : FileStore) : FileStore :=
  s.All.foldl (fun st k => st.Del k) s

/-- Claim C2 counterexample: Reset on a closed MemoryStore does not leave
the message state unchanged; it wipes the stored message. -/
theorem memoryStore_reset_closed_not_noop :
    MemoryStore.Reset ⟨[("o.1", .pingreq ⟨12, false, 0, false, 0⟩)], false⟩ ≠
      ⟨[("o.1", .pingreq ⟨12, false, 0, false, 0⟩)], false⟩ := by
  decide

/-- Claim C2 (amended): for every store variant, Put, Get, All, Del and
Close on a store that has not been opened or has been closed leave the
store state unchanged, return the absent or empty result where one is
expected, and do not panic (every operation is a total function that
returns before touching its state); Reset is likewise a no-op for the
filesystem variant, whose key enumeration returns empty when the store is
not open, but on the two in-memory variants Reset still wipes the message
state, because its not-open branch only logs and does not return early. -/
theorem closedStore_operations (s : MemoryStore) (t : OrderedMemoryStore)
    (f : FileStore) (encode : Packet → List Byte)
    (unpack : Packet → List Byte → Option PErr)
    (k : String) (m : Packet) (now : Nat)
    (hs : s.opened = false) (ht : t.opened = false)
    (hf : f.opened = false) :
    (s.Put k m = s ∧ s.Get k = none ∧ s.All = [] ∧ s.Del k = s ∧
       s.Close = s ∧ s.Reset = { s with messages := [] }) ∧
    (t.Put now k m = t ∧ t.Get k = none ∧ t.All = [] ∧ t.Del k = t ∧
       t.Close = t ∧ t.Reset = { t with messages := [] }) ∧
    (f.Put encode now k m = f ∧ f.Get unpack k = (none, f) ∧ f.All = [] ∧
       f.Del k = f ∧ f.Close = f ∧ f.Reset = f) := by
  obtain ⟨fdir, fop⟩ := f
  subst hf
  have hall : FileStore.All ⟨fdir, false⟩ = [] := by
    simp [FileStore.All]
  refine ⟨⟨?_, ?_, ?_, ?_, ?_, ?_⟩, ⟨?_, ?_, ?_, ?_, ?_, ?_⟩,
    ⟨?_, ?_, hall, ?_, rfl, ?_⟩⟩ <;>
    simp [MemoryStore.Put, MemoryStore.Get, MemoryStore.All,
      MemoryStore.Del, MemoryStore.Close, MemoryStore.Reset,
      OrderedMemoryStore.Put, OrderedMemoryStore.Get,
      OrderedMemoryStore.All, OrderedMemoryStore.Del,
      OrderedMemoryStore.Close, OrderedMemoryStore.Reset,
      FileStore.Put, FileStore.Get, FileStore.Del, FileStore.Close,
      FileStore.Reset, hall, hs, ht]

/-- Claim C2 witness: the amended theorem at concrete closed stores of
all three variants, showing the in-memory wipe and the FileStore no-op. -/
theorem closedStore_operations_witness :
    ((⟨[("o.1", .puback ⟨4, false, 0, false, 2⟩)], false⟩ :
        MemoryStore).opened = false ∧
       (⟨[("o.1.msg", ⟨0, [64, 2, 0, 1]⟩)], false⟩ :
          FileStore).opened = false) ∧
      ((⟨[("o.1", .puback ⟨4, false, 0, false, 2⟩)], false⟩ :
          MemoryStore).Reset = ⟨[], false⟩ ∧
       (⟨[("o.1.msg", ⟨0, [64, 2, 0, 1]⟩)], false⟩ : FileStore).Reset =
         ⟨[("o.1.msg", ⟨0, [64, 2, 0, 1]⟩)], false⟩) :=
  ⟨⟨rfl, rfl⟩,
   by
    have h := closedStore_operations
      ⟨[("o.1", .puback ⟨4, false, 0, false, 2⟩)], false⟩
      ⟨[], false⟩
      ⟨[("o.1.msg", ⟨0, [64, 2, 0, 1]⟩)], false⟩
      (fun _ => []) unpackConnackOnly
      "o.1" (.puback ⟨4, false, 0, false, 2⟩) 0 rfl rfl rfl
    exact ⟨h.1.2.2.2.2.2, h.2.2.2.2.2.2.2⟩⟩

theorem tsAscending_insertByTs (x : Nat × String) (l : List (Nat × String))
    (h : tsAscending l = true) : tsAscending (insertByTs x l) = true := by
  induction l with
  | nil => rfl
  | cons y ys ih =>
    simp only [insertByTs]
    by_cases hxy : x.1 < y.1
    · rw [if_pos hxy]
      simp only [tsAscending, Bool.and_eq_true, decide_eq_true_eq]
      exact ⟨by omega, h⟩
    · rw [if_neg hxy]
      cases ys with
      | nil =>
        simp only [insertByTs, tsAscending, Bool.and_eq_true,
          decide_eq_true_eq]
        exact ⟨by omega, trivial⟩
      | cons z zs =>
        have hyz : y.1 ≤ z.1 := by
          have h2 := h
          simp only [tsAscending, Bool.and_eq_true, decide_eq_true_eq] at h2
          exact h2.1
        have htail : tsAscending (z :: zs) = true := by
          simp only [tsAscending, Bool.and_eq_true, decide_eq_true_eq] at h
          exact h.2
        have hins := ih htail
        simp only [insertByTs] at hins ⊢
        by_cases hxz : x.1 < z.1
        · rw [if_pos hxz] at hins ⊢
          simp only [tsAscending, Bool.and_eq_true, decide_eq_true_eq]
            at hins ⊢
          exact ⟨by omega, hins⟩
        · rw [if_neg hxz] at hins ⊢
          simp only [tsAscending, Bool.and_eq_true, decide_eq_true_eq]
            at hins ⊢
          exact ⟨hyz, hins⟩

theorem tsAscending_sortByTs (l : List (Nat × String)) :
    tsAscending (sortByTs l) = true := by
  induction l with
  | nil => rfl
  | cons x xs ih => exact tsAscending_insertByTs x _ ih

/-- Claim C6: every Put on an open ordered store records the current time
against the key; All sorts the stored keys ascending by recorded time; and
in particular two successive Puts of distinct keys on a freshly opened
store make All return the two keys in insertion order. -/
theorem orderedStore_insertion_order
    (k1 k2 : String) (m1 m2 : Packet) (t1 t2 : Nat)
    (hk : k1 ≠ k2) (ht : t1 < t2) :
    (∀ (s : OrderedMemoryStore) (now : Nat) (k : String) (m : Packet),
        s.opened = true →
        lookupMsg k (s.Put now k m).messages = some ⟨now, m⟩) ∧
    (∀ s : OrderedMemoryStore,
        tsAscending
          (sortByTs (s.messages.map (fun p => (p.2.ts, p.1)))) = true) ∧
    ((NewOrderedMemoryStore.Open.Put t1 k1 m1).Put t2 k2 m2).All =
      [k1, k2] := by
  refine ⟨?_, ?_, ?_⟩
  · intro s now k m hop
    simp [OrderedMemoryStore.Put, hop, lookupMsg_insertMsg_self]
  · intro s
    exact tsAscending_sortByTs _
  · have hnot : ¬ t2 < t1 := by omega
    simp [NewOrderedMemoryStore, OrderedMemoryStore.Open,
      OrderedMemoryStore.Put, OrderedMemoryStore.All, insertMsg,
      sortByTs, insertByTs, tsAscending, hk, hnot]

/-- Claim C6 witness: the theorem at two concrete keys and ticks. -/
theorem orderedStore_insertion_order_witness :
    (("o.1" : String) ≠ "o.2" ∧ (0 : Nat) < 1) ∧
      ((NewOrderedMemoryStore.Open.Put 0 "o.1"
          (.publish ⟨3, false, 1, false, 7⟩)).Put 1 "o.2"
          (.publish ⟨3, false, 1, false, 9⟩)).All = ["o.1", "o.2"] :=
  ⟨⟨by decide, by decide⟩,
   (orderedStore_insertion_order "o.1" "o.2"
      (.publish ⟨3, false, 1, false, 7⟩) (.publish ⟨3, false, 1, false, 9⟩)
      0 1 (by decide) (by decide)).2.2⟩

/-- Keepalive configuration (ping.go): the keepalive interval and the
probe-response timeout, both as durations on the abstract clock. -/
structure KConfig where
  keepAlive : Nat
  pingTimeout : Nat
  deriving DecidableEq

/-- Keepalive state shared with the connection writer and reader
(ping.go): the last-sent and last-received stamps, the outstanding-probe
flag (the atomic pingOutstanding counter, 0 or 1), and the local pingSent
stamp of the loop. -/
structure KState where
  lastSent : Nat
  lastReceived : Nat
  pingOutstanding : Bool
  pingSent : Nat
  deriving DecidableEq

/-- Observable actions of one keepalive tick. -/
inductive KEvent where
  | pingreqSent
  | connectionLost
  deriving DecidableEq

/-- Embedding of the probe-sending half of the keepalive tick (ping.go
lines 58 to 71): when no probe is outstanding and either idle time has
reached the keepalive interval, send a PINGREQ, set the flag and stamp the
send time.  A write error on the connection only logs, so it has no state
effect here. -/
def keepaliveSend (cfg : KConfig) (now : Nat) (s : KState) :
    KState × List KEvent :=
  if cfg.keepAlive ≤ now - s.lastSent ∨
      cfg.keepAlive ≤ now - s.lastReceived then
    if s.pingOutstanding = false then
      ({ s with pingOutstanding := true, lastSent := now, pingSent := now },
       [KEvent.pingreqSent])
    else (s, [])
  else (s, [])

/-- Embedding of one full keepalive tick (ping.go lines 53 to 76): the
probe-sending half followed by the timeout check, which reads the updated
flag and send stamp; on timeout the loop declares the connection lost and
exits, signalled by the final Bool. -/
def keepaliveTick (cfg : KConfig) (now : Nat) (s : KState) :
    KState × List KEvent × Bool :=
  let p := keepaliveSend cfg now s
  if p.1.pingOutstanding = true ∧ cfg.pingTimeout ≤ now - p.1.pingSent then
    (p.1, p.2 ++ [KEvent.connectionLost], true)
  else (p.1, p.2, false)

/-- Run of the keepalive loop over a list of tick instants in which no
PINGRESP ever arrives: nothing clears the outstanding flag between ticks,
and the run stops as soon as a tick exits. -/
def keepaliveRun (cfg : KConfig) : KState → List Nat → List KEvent
  | _, [] => []
  | s, t :: ts =>
    if (keepaliveTick cfg t s).2.2 = true then (keepaliveTick cfg t s).2.1
    else (keepaliveTick cfg t s).2.1 ++
      keepaliveRun cfg (keepaliveTick cfg t s).1 ts

theorem keepaliveSend_outstanding (cfg : KConfig) (now : Nat) (s : KState)
    (hs : s.pingOutstanding = true) : keepaliveSend cfg now s = (s, []) := by
  simp [keepaliveSend, hs]

theorem keepaliveTick_connLost_count (cfg : KConfig) (now : Nat)
    (s : KState) :
    ((keepaliveTick cfg now s).2.1.count KEvent.connectionLost) =
      (if (keepaliveTick cfg now s).2.2 = true then 1 else 0) := by
  have hsend : (keepaliveSend cfg now s).2 = [] ∨
      (keepaliveSend cfg now s).2 = [KEvent.pingreqSent] := by
    simp only [keepaliveSend]
    split
    · split
      · right; rfl
      · left; rfl
    · left; rfl
  rcases hsend with h | h <;>
    simp [keepaliveTick, h] <;> split <;> simp

theorem keepaliveRun_connLost_atMostOnce (cfg : KConfig) (ts : List Nat) :
    ∀ s : KState,
      (keepaliveRun cfg s ts).count KEvent.connectionLost ≤ 1 := by
  induction ts with
  | nil => intro s; simp [keepaliveRun]
  | cons t ts ih =>
    intro s
    have h := keepaliveTick_connLost_count cfg t s
    by_cases hex : (keepaliveTick cfg t s).2.2 = true
    · rw [if_pos hex] at h
      simp [keepaliveRun, hex, h]
    · rw [if_neg hex] at h
      have hrec := ih (keepaliveTick cfg t s).1
      simp [keepaliveRun, hex, List.count_append, h]
      omega

/-- Claim C7: while the outstanding-probe flag is set no tick sends a
second PINGREQ; any tick that sends a PINGREQ leaves the flag set; a tick
at which the flag is set and the probe-response timeout has elapsed since
the send declares the connection lost and exits the loop; a run in which
no PINGRESP ever arrives declares the connection lost at most once, and
exactly once when its first tick is such a timeout tick. -/
theorem keepalive_probe_once_and_timeout :
    (∀ (cfg : KConfig) (now : Nat) (s : KState),
        s.pingOutstanding = true →
        KEvent.pingreqSent ∉ (keepaliveTick cfg now s).2.1) ∧
    (∀ (cfg : KConfig) (now : Nat) (s : KState),
        KEvent.pingreqSent ∈ (keepaliveTick cfg now s).2.1 →
        (keepaliveTick cfg now s).1.pingOutstanding = true) ∧
    (∀ (cfg : KConfig) (now : Nat) (s : KState),
        s.pingOutstanding = true →
        cfg.pingTimeout ≤ now - s.pingSent →
        (keepaliveTick cfg now s).2.2 = true ∧
        KEvent.connectionLost ∈ (keepaliveTick cfg now s).2.1) ∧
    (∀ (cfg : KConfig) (s : KState) (ts : List Nat),
        (keepaliveRun cfg s ts).count KEvent.connectionLost ≤ 1) ∧
    (∀ (cfg : KConfig) (s : KState) (t : Nat) (ts : List Nat),
        s.pingOutstanding = true →
        cfg.pingTimeout ≤ t - s.pingSent →
        (keepaliveRun cfg s (t :: ts)).count KEvent.connectionLost = 1) := by
  have tickOutstanding : ∀ (cfg : KConfig) (now : Nat) (s : KState),
      s.pingOutstanding = true →
      cfg.pingTimeout ≤ now - s.pingSent →
      (keepaliveTick cfg now s).2.2 = true ∧
      KEvent.connectionLost ∈ (keepaliveTick cfg now s).2.1 := by
    intro cfg now s hs htime
    have hsend := keepaliveSend_outstanding cfg now s hs
    simp [keepaliveTick, hsend, hs, htime]
  refine ⟨?_, ?_, tickOutstanding, ?_, ?_⟩
  · intro cfg now s hs
    have hsend := keepaliveSend_outstanding cfg now s hs
    simp only [keepaliveTick, hsend]
    split <;> simp
  · intro cfg now s hmem
    by_cases hs : s.pingOutstanding = true
    · have hsend := keepaliveSend_outstanding cfg now s hs
      simp only [keepaliveTick, hsend]
      split <;> simpa [hs]
    · have hs2 : s.pingOutstanding = false := by
        cases h : s.pingOutstanding
        · rfl
        · exact absurd h hs
      have hstate : (keepaliveTick cfg now s).1 = (keepaliveSend cfg now s).1 := by
        simp only [keepaliveTick]
        split <;> rfl
      by_cases hcond : cfg.keepAlive ≤ now - s.lastSent ∨
          cfg.keepAlive ≤ now - s.lastReceived
      · have hsend1 : (keepaliveSend cfg now s).1.pingOutstanding = true := by
          simp [keepaliveSend, hcond, hs2]
        rw [hstate, hsend1]
      · have hsend : keepaliveSend cfg now s = (s, []) := by
          simp [keepaliveSend, hcond]
        simp only [keepaliveTick, hsend] at hmem
        split at hmem <;> simp_all
  · intro cfg s ts
    exact keepaliveRun_connLost_atMostOnce cfg ts s
  · intro cfg s t ts hs htime
    have htick := tickOutstanding cfg t s hs htime
    have hcount := keepaliveTick_connLost_count cfg t s
    rw [if_pos htick.1] at hcount
    simp [keepaliveRun, htick.1, hcount]

/-- Claim C7 witness: a timeout tick at concrete parameters fires the
liveness-lost signal exactly once. -/
theorem keepalive_probe_once_and_timeout_witness :
    ((⟨0, 0, true, 0⟩ : KState).pingOutstanding = true ∧
       (⟨10, 3⟩ : KConfig).pingTimeout ≤ 5 - (⟨0, 0, true, 0⟩ : KState).pingSent) ∧
      (keepaliveRun ⟨10, 3⟩ ⟨0, 0, true, 0⟩ [5, 6, 7]).count
        KEvent.connectionLost = 1 :=
  ⟨⟨rfl, by decide⟩,
   keepalive_probe_once_and_timeout.2.2.2.2 ⟨10, 3⟩ ⟨0, 0, true, 0⟩ 5 [6, 7]
     rfl (by decide)⟩

/-- Splitting on the level separator, the embedding of
strings.Split(s, "/") over the character list of a string; the empty
string splits into one empty level. -/
def splitLevels : List Char → List (List Char)
  | [] => [[]]
  | c :: rest =>
    if c = '/' then [] :: splitLevels rest
    else
      match splitLevels rest with
      | [] => [[c]]
      | g :: gs => (c :: g) :: gs

/-- Modelled from the spec: the routeSplit helper of the router, whose
implementation file is not under src.  A filter of the form
share-prefix slash group slash rest is matched using rest alone; the
leading share marker and group levels are dropped before matching. -/
def routeSplit (filter : List Char) : List (List Char) :=
  let parts := splitLevels filter
  match parts with
  | s :: _g :: rest =>
    if s = ['$', 's', 'h', 'a', 'r', 'e'] then rest else parts
  | _ => parts

/-- Modelled from the spec: structural level-by-level filter matching.
The plus level matches exactly one topic level, the hash level matches all
remaining levels including zero, and otherwise levels must agree literally
with equal level counts. -/
def matchLevels : List (List Char) → List (List Char) → Bool
  | [], [] => true
  | [], _ :: _ => false
  | f :: _, [] => decide (f = ['#'])
  | f :: fs, t :: ts =>
    if f = ['#'] then true
    else (decide (f = ['+']) || decide (f = t)) && matchLevels fs ts

/-- Check that the first level of a split filter begins with a wildcard
character. -/
def isWildcardFirst : List (List Char) → Bool
  | [] => false
  | lvl :: _ =>
    match lvl with
    | [] => false
    | c :: _ => decide (c = '+') || decide (c = '#')

/-- Check that a topic begins with the dollar character. -/
def startsWithDollar : List Char → Bool
  | '$' :: _ => true
  | _ => false

/-- Modelled from the spec: routeIncludesTopic of the router, structural
matching of the share-stripped filter against the split topic. -/
def routeIncludesTopic (filter topic : List Char) : Bool :=
  matchLevels (routeSplit filter) (splitLevels topic)

/-- Modelled from the spec: the match method of route.  Topics beginning
with the dollar character are excluded from matches against filters whose
share-stripped form starts with a wildcard; otherwise matching is the
structural level-by-level comparison. -/
def routeMatchTopic (filter topic : List Char) : Bool :=
  if startsWithDollar topic && isWildcardFirst (routeSplit filter) then
    false
  else
    routeIncludesTopic filter topic

/-- Grounding of the modelled router in the repository: every vector of
TestMatchWithWildcardTopicFilter (ping.go) and a selection of the vectors
of the router tests evaluate as the tests expect. -/
theorem routeMatch_agrees_with_repo_tests :
    (routeMatchTopic ( "example/+/temp/+".data) ( "example/gauge/temp/25".data) = true) ∧
    (routeMatchTopic ( "$sys/+/temp/+".data) ( "$sys/gauge/temp/25".data) = true) ∧
    (routeMatchTopic ( "example/machines/#".data) ( "example/machines/robot-2/voltage".data) = true) ∧
    (routeMatchTopic ( "$SYS/machines/#".data) ( "$SYS/machines/robot-2/voltage".data) = true) ∧
    (routeMatchTopic ( "+".data) ( "sensor".data) = true) ∧
    (routeMatchTopic ( "+/example".data) ( "sensor/example".data) = true) ∧
    (routeMatchTopic ( "#".data) ( "sensor/very/long/topic".data) = true) ∧
    (routeMatchTopic ( "$share/group/+/example/+/data".data) ( "sensor/example/something/data".data) = true) ∧
    (routeMatchTopic ( "$share/group/#".data) ( "sensor/this/is/shared".data) = true) ∧
    (routeMatchTopic ( "+".data) ( "$SYS".data) = false) ∧
    (routeMatchTopic ( "+/example/sensor/+".data) ( "$VENDOR/example/sensor/data".data) = false) ∧
    (routeMatchTopic ( "#".data) ( "$sys/very/long/topic".data) = false) ∧
    (routeMatchTopic ( "$share/group/#".data) ( "$vendor/this/is/shared".data) = false) ∧
    (routeMatchTopic ( "/alpha".data) ( "/alpha".data) = true) ∧
    (routeMatchTopic ( "/alpha".data) ( "alpha".data) = false) ∧
    (routeIncludesTopic ( "".data) ( "".data) = true) ∧
    (routeIncludesTopic ( "x".data) ( "".data) = false) ∧
    (routeIncludesTopic ( "".data) ( "x".data) = false) ∧
    (routeIncludesTopic ( "/".data) ( "/".data) = true) ∧
    (routeIncludesTopic ( "/two".data) ( "two".data) = false) ∧
    (routeIncludesTopic ( "/a/".data) ( "/a".data) = false) ∧
    (routeIncludesTopic ( "/a/+/c".data) ( "/a/b/c".data) = true) ∧
    (routeIncludesTopic ( "/a/b/c/+".data) ( "/a/b/c".data) = false) ∧
    (routeIncludesTopic ( "+/+".data) ( "/a".data) = true) ∧
    (routeIncludesTopic ( "+/+".data) ( "a".data) = false) ∧
    (routeIncludesTopic ( "/#".data) ( "/a/b/c".data) = true) ∧
    (routeIncludesTopic ( "/a/b/#".data) ( "/a/b/c".data) = true) := by
  decide

/-- Claim C5: for a topic beginning with the dollar character, a filter
whose share-stripped first level starts with a wildcard never matches,
while a filter whose first level is an explicit literal segment matches
exactly according to the ordinary level-by-level wildcard rules. -/
theorem routerMatch_dollar_exclusion (filter topic : List Char)
    (ht : startsWithDollar topic = true) :
    (isWildcardFirst (routeSplit filter) = true →
       routeMatchTopic filter topic = false) ∧
    (isWildcardFirst (routeSplit filter) = false →
       routeMatchTopic filter topic =
         matchLevels (routeSplit filter) (splitLevels topic)) := by
  constructor <;> intro hw <;>
    simp [routeMatchTopic, routeIncludesTopic, ht, hw]

/-- Claim C5 witness: the exclusion at a bare plus filter against a
dollar topic, and the ordinary matching of a literal-first filter against
the same kind of topic. -/
theorem routerMatch_dollar_exclusion_witness :
    (startsWithDollar ( "$SYS".data) = true ∧
       isWildcardFirst (routeSplit ( "+".data)) = true ∧
       routeMatchTopic ( "+".data) ( "$SYS".data) = false) ∧
    (isWildcardFirst (routeSplit ( "$sys/+/temp/+".data)) = false ∧
       routeMatchTopic ( "$sys/+/temp/+".data) ( "$sys/gauge/temp/25".data) =
         matchLevels (routeSplit ( "$sys/+/temp/+".data))
           (splitLevels ( "$sys/gauge/temp/25".data))) :=
  ⟨⟨by decide, by decide,
    (routerMatch_dollar_exclusion ( "+".data) ( "$SYS".data)
      (by decide)).1 (by decide)⟩,
   ⟨by decide,
    (routerMatch_dollar_exclusion ( "$sys/+/temp/+".data)
      ( "$sys/gauge/temp/25".data) (by decide)).2 (by decide)⟩⟩

end PahoMqtt
